import Mathlib

/-!
Verification of the transaction ledger core.  The definitions below are a
shallow embedding of the Go sources: the `db` package in its latest
evolution (monetary `Value` with currency rendering and parsing, the
`Transaction` and `Database` entities with positional CRUD, and the
persistence functions `Open`/`Write` with their file-system effects made
explicit parameters), together with the query layer of the v0.2 CLI
(`isTypeDeposit`/`isTypeWithdraw`, the `filter` command's predicate loop and
the running-balance computation of the transaction table).
-/

namespace TrDb

/-- Models the Go type `Value int`: a signed count of minor currency units. -/
abbrev Value := Int

/-- Models `DefaultCurrency.Ratio`: the Euro currency has `Value(100)` minor
units per major unit.  The display pattern of the default currency is
`"%d.%02d€"`; it is realized concretely by `ValueString` below. -/
def ratio : Value := 100

/-- Models the source constant `ZeroValue = Value(0)`. -/
def ZeroValue : Value := 0

/-- Models the source helper `abs`: `if x < ZeroValue { return -x }; return x`. -/
def abs (x : Value) : Value := if x < ZeroValue then -x else x

/-- Models `Value.Add`: exact integer addition. -/
def Value.Add (v a : Value) : Value := v + a

/-- Models `Value.Smaller`: `int(v) < int(a)`. -/
def Value.Smaller (v a : Value) : Bool := decide (v < a)

/-- Models `Value.Larger`: `int(v) > int(a)`. -/
def Value.Larger (v a : Value) : Bool := decide (v > a)

/-- Models the Go type `Action string`: a free-form transaction kind. -/
abbrev Action := String

/-- Models the source constant `Withdraw Action = "withdraw"`. -/
def Withdraw : Action := "withdraw"

/-- Models the source constant `Deposit Action = "deposit"`. -/
def Deposit : Action := "deposit"

/-- Models the Go struct `Transaction` (fields `Name`, `Amount`, `Type`,
`Date`); `time.Time` is modelled as an abstract `Nat` timestamp, which no
claim inspects. -/
structure Transaction where
  name : String
  amount : Value
  type : Action
  date : Nat
deriving DecidableEq

/-- Models the zero value `Transaction{}` of the Go struct, which `Read`
returns together with its error. -/
def emptyTransaction : Transaction := { name := "", amount := 0, type := "", date := 0 }

/-- Models the Go struct `Database`: a named, ordered transaction list. -/
structure Database where
  name : String
  transactions : List Transaction
deriving DecidableEq

/-- Models `NewDatabase`: an empty named ledger. -/
def NewDatabase (name : String) : Database := { name := name, transactions := [] }

/-- Models the error value `errTransactionNotFound`, the only error the
database layer ever creates. -/
inductive DbError where
  | transactionNotFound
deriving DecidableEq

/-- Models `Database.Size`: the transaction count (a Go `int`). -/
def Database.Size (db : Database) : Int := db.transactions.length

/-- Models `Database.Store`: `append(db.Transactions, transact)`. -/
def Database.Store (db : Database) (transact : Transaction) : Database :=
  { db with transactions := db.transactions ++ [transact] }

/-- Models `Database.Delete` (latest evolution): when `ID < 0 || ID >= db.Size()`
it returns `errTransactionNotFound` leaving the receiver unchanged, otherwise
it removes index `ID` via `append(ts[:ID], ts[ID+1:]...)`.  The returned pair
is (database state after the call, returned error). -/
def Database.Delete (db : Database) (ID : Int) : Database × Option DbError :=
  if ID < 0 ∨ db.Size ≤ ID then (db, some DbError.transactionNotFound)
  else ({ db with transactions := db.transactions.take ID.toNat ++ db.transactions.drop (ID.toNat + 1) },
        none)

/-- Models `Database.Read` (latest evolution): when `ID < 0 || ID >= db.Size()`
it returns the zero `Transaction` and `errTransactionNotFound`, otherwise the
element at index `ID` and no error. -/
def Database.Read (db : Database) (ID : Int) : Transaction × Option DbError :=
  if ID < 0 ∨ db.Size ≤ ID then (emptyTransaction, some DbError.transactionNotFound)
  else (db.transactions.getD ID.toNat emptyTransaction, none)

/-- Character of the decimal digit `n` (for `0 ≤ n ≤ 9` this is `0`-`9`). -/
def digitChar (n : Nat) : Char := Char.ofNat (48 + n)

/-- Fuel-driven decimal printer for naturals; `natDecimal` supplies enough
fuel, so the fuel never runs out. -/
def natDecimalAux : Nat → Nat → List Char
  | 0, _ => []
  | fuel + 1, n =>
    if n < 10 then [digitChar n] else natDecimalAux fuel (n / 10) ++ [digitChar (n % 10)]

/-- Decimal digit string of a natural number, as printed by Go's `%d` verb. -/
def natDecimal (n : Nat) : List Char := natDecimalAux (n + 1) n

/-- Decimal rendering of a Go `int` under the `%d` verb: a minus sign followed
by the digits of the magnitude for negative values. -/
def intDecimal (i : Int) : List Char :=
  if i < 0 then '-' :: natDecimal (-i).toNat else natDecimal i.toNat

/-- Rendering of a nonnegative number under Go's `%02d` verb: zero-padded to
width two. -/
def pad2 (n : Nat) : List Char := if n < 10 then '0' :: natDecimal n else natDecimal n

/-- Models `Value.String` (latest evolution):
`fmt.Sprintf(DefaultCurrency.Format, v/DefaultCurrency.Ratio, abs(v%DefaultCurrency.Ratio))`
with the format `"%d.%02d€"`, using Go's truncated division and remainder. -/
def ValueString (v : Value) : String :=
  ⟨intDecimal (Int.tdiv v ratio) ++ '.' :: (pad2 (abs (Int.tmod v ratio)).toNat ++ ['€'])⟩

/-- Greedy digit scanner underlying `fmt.Sscanf`'s numeric verbs: consumes
leading decimal digits, accumulating their value onto `acc`. -/
def scanDigitsAux : List Char → Nat → Nat × List Char
  | [], acc => (acc, [])
  | c :: cs, acc =>
    if c.isDigit then scanDigitsAux cs (acc * 10 + (c.toNat - 48)) else (acc, c :: cs)

/-- Scanner for an unsigned decimal number: at least one digit, consumed
greedily. -/
def scanNat : List Char → Option (Nat × List Char)
  | [] => none
  | c :: cs => if c.isDigit then some (scanDigitsAux (c :: cs) 0) else none

/-- Scanner for the `%d` verb of `fmt.Sscanf`: an optional minus sign followed
by at least one digit. -/
def scanInt (l : List Char) : Option (Int × List Char) :=
  match l with
  | [] => none
  | c :: cs =>
    if c = '-' then
      match scanNat cs with
      | some (n, rest) => some (-(n : Int), rest)
      | none => none
    else
      match scanNat (c :: cs) with
      | some (n, rest) => some ((n : Int), rest)
      | none => none

/-- Scanner for the width-limited `%02d` verb of `fmt.Sscanf`: at most two
digits, at least one. -/
def scanNat2 : List Char → Option (Nat × List Char)
  | [] => none
  | [c] => if c.isDigit then some (c.toNat - 48, []) else none
  | c1 :: c2 :: cs =>
    if c1.isDigit then
      if c2.isDigit then some ((c1.toNat - 48) * 10 + (c2.toNat - 48), cs)
      else some (c1.toNat - 48, c2 :: cs)
    else none

/-- Predicate used to state the scanner lemmas: the continuation does not start
with a digit, so the greedy digit scan stops exactly there. -/
def headNotDigit : List Char → Prop
  | [] => True
  | c :: _ => c.isDigit = false

/-- Models `Parse` (latest evolution): `fmt.Sscanf(in, "%d.%02d€", &maj, &min)`
followed by `Value(maj)*Ratio + Value(min)%Ratio`.  As in the source, the
`Sscanf` error is ignored: arguments scanned before a mismatch keep their
value, the remaining ones stay zero. -/
def Parse (inp : String) : Value :=
  match scanInt inp.data with
  | none => 0
  | some (maj, rest) =>
    match rest with
    | '.' :: rest2 =>
      match scanNat2 rest2 with
      | none => maj * ratio
      | some (mn, _) => maj * ratio + Int.tmod (mn : Int) ratio
    | _ => maj * ratio

/-- Models an error returned by the operating system for a file operation,
wrapping a textual cause. -/
inductive FsError where
  | fsError (cause : String)
deriving DecidableEq

/-- Models `Open` (latest evolution).  The file-system read and the JSON
decoder are explicit parameters: `readFileResult` is what `ioutil.ReadFile`
returned for the database path and `unmarshal` is `json.Unmarshal` into a
`Database`, returning `none` exactly when it errors.  A read error is
propagated; an unmarshal error is swallowed and the zero `Database` is
returned with a nil error, as in the source. -/
def Open (readFileResult : Except FsError String) (unmarshal : String → Option Database) :
    Except FsError Database :=
  match readFileResult with
  | .error err => .error err
  | .ok bytes =>
    match unmarshal bytes with
    | none => .ok { name := "", transactions := [] }
    | some database => .ok database

/-- Models `Write` (latest evolution): the error of `json.Marshal(database)` is
checked and returned, but the error of `ioutil.WriteFile` is discarded and
`nil` is returned regardless.  `marshalResult` is the marshaller's result for
the database and `writeFileError` the error value produced by the
`ioutil.WriteFile` call. -/
def Write (marshalResult : Except String String) (_writeFileError : Option FsError) :
    Option String :=
  match marshalResult with
  | .error e => some e
  | .ok _bytes => none

/-- Models the ASCII case mapping performed by `strings.ToLower` (the kind
synonyms are ASCII-only). -/
def lowerChar (c : Char) : Char :=
  if 'A' ≤ c ∧ c ≤ 'Z' then Char.ofNat (c.toNat + 32) else c

/-- Models `strings.ToLower(strings.TrimSpace(text))` on the character list:
strip leading and trailing whitespace, then lower the case. -/
def trimLower (text : String) : List Char :=
  (((text.data.dropWhile Char.isWhitespace).reverse.dropWhile
      Char.isWhitespace).reverse).map lowerChar

/-- Models the v0.2 CLI helper `isTypeDeposit`: the lower-cased trimmed text is
one of the deposit synonyms. -/
def isTypeDeposit (text : String) : Bool :=
  trimLower text == "dp".data || trimLower text == "deposit".data ||
    trimLower text == "depo".data

/-- Models the v0.2 CLI helper `isTypeWithdraw`: the lower-cased trimmed text
is one of the withdraw synonyms. -/
def isTypeWithdraw (text : String) : Bool :=
  trimLower text == "wd".data || trimLower text == "withdraw".data ||
    trimLower text == "draw".data

/-- Models the predicate loop of the v0.2 CLI `filterAction`: iterate the ids
`0 .. Size()-1` in order (each in-range `database.Read(id)` returns the element
at `id`), skip a transaction when a supplied predicate rejects it, and collect
the survivors keyed by their positional ID.  The sentinel for an absent
predicate is the empty string for `name`/`type` and `ZeroValue` for
`min`/`max`. -/
def filterTransactions (database : Database) (namePredicate : String)
    (maxPredicate minPredicate : Value) (typePredicate : String) :
    List (Nat × Transaction) :=
  (List.range database.transactions.length).filterMap fun id =>
    let transact := database.transactions.getD id emptyTransaction
    if namePredicate ≠ "" ∧ transact.name ≠ namePredicate then none
    else if maxPredicate ≠ ZeroValue ∧ Value.Smaller maxPredicate transact.amount then none
    else if minPredicate ≠ ZeroValue ∧ Value.Larger minPredicate transact.amount then none
    else if typePredicate ≠ "" ∧
        ((isTypeDeposit typePredicate ∧ transact.type ≠ Deposit) ∨
         (isTypeWithdraw typePredicate ∧ transact.type ≠ Withdraw)) then none
    else some (id, transact)

/-- Example transaction of the filter scenario: a withdrawal of 50 minor units. -/
def exW50 : Transaction := { name := "w small", amount := 50, type := Withdraw, date := 0 }

/-- Example transaction of the filter scenario: a withdrawal of 150 minor units. -/
def exW150 : Transaction := { name := "w big", amount := 150, type := Withdraw, date := 1 }

/-- Example transaction of the filter scenario: a deposit of 200 minor units. -/
def exD200 : Transaction := { name := "d", amount := 200, type := Deposit, date := 2 }

/-- Models one step of the running-balance switch of the transaction table
(`printTransactionTable`, and identically `listAction` of v0.1): a `withdraw`
subtracts its amount, a `deposit` adds it, and any other kind string falls
through the switch, leaving the balance unchanged. -/
def balanceStep (balance : Value) (transact : Transaction) : Value :=
  if transact.type = Withdraw then Value.Add balance (-transact.amount)
  else if transact.type = Deposit then Value.Add balance transact.amount
  else balance

/-- Models the running balance over an ordered transaction sequence, starting
from zero. -/
def tableBalance (transactions : List Transaction) : Value :=
  transactions.foldl balanceStep 0

/-- Events of two concurrent composite mutators A and B against the same
persisted file: each invocation performs its `Open` (read the file into a
local ledger) and later its `Write` (replace the file wholesale). -/
inductive RaceEvent where
  | readA
  | writeA
  | readB
  | writeB
deriving DecidableEq

/-- State of the race: the persisted file plus each invocation's in-memory
ledger. -/
structure RaceState where
  file : Database
  localA : Database
  localB : Database

/-- Single step of the interleaving semantics of the composite mutators
(`Store`/`Delete` of the db package): `Open` copies the file into the local
ledger, `Write` replaces the file by the invocation's in-memory mutation
applied to its local ledger.  No mutual exclusion constrains the order. -/
def raceStep (mutA mutB : Database → Database) (s : RaceState) : RaceEvent → RaceState
  | .readA => { s with localA := s.file }
  | .writeA => { s with file := mutA s.localA }
  | .readB => { s with localB := s.file }
  | .writeB => { s with file := mutB s.localB }

/-- Run of a schedule of race events from a given state. -/
def runRace (mutA mutB : Database → Database) (s : RaceState)
    (sched : List RaceEvent) : RaceState :=
  sched.foldl (raceStep mutA mutB) s

/-- C1: on every ledger, `Delete(i)` with `0 <= i < Size()` succeeds, removes the
transaction at index `i` (every index `j < i` is preserved and every index
`j ≥ i` now holds the transaction previously at `j+1`), and decreases `Size()`
by exactly one; with `i < 0` or `i >= Size()` it fails with `NotFound` and
leaves the transaction sequence unmodified. -/
theorem c1_delete_spec (db : Database) (i : Int) :
    (0 ≤ i → i < db.Size →
      (db.Delete i).2 = none ∧
      (db.Delete i).1.Size = db.Size - 1 ∧
      (∀ j : Nat, j < i.toNat → (db.Delete i).1.transactions[j]? = db.transactions[j]?) ∧
      (∀ j : Nat, i.toNat ≤ j → (db.Delete i).1.transactions[j]? = db.transactions[j + 1]?)) ∧
    ((i < 0 ∨ db.Size ≤ i) → db.Delete i = (db, some DbError.transactionNotFound)) := by
  have hsize : db.Size = (db.transactions.length : Int) := rfl
  constructor
  · intro h0 hlt
    have hcond : ¬(i < 0 ∨ db.Size ≤ i) := by omega
    have hk : i.toNat < db.transactions.length := by omega
    simp only [Database.Delete, if_neg hcond]
    refine ⟨trivial, ?_, ?_, ?_⟩
    · simp only [Database.Size, List.length_append, List.length_take, List.length_drop]
      omega
    · intro j hj
      exact (List.getElem?_append_left (by rw [List.length_take]; omega)).trans
        (List.getElem?_take_of_lt hj)
    · intro j hj
      rw [List.getElem?_append_right (by rw [List.length_take]; omega), List.getElem?_drop]
      congr 1
      rw [List.length_take]
      omega
  · intro hcond
    simp only [Database.Delete, if_pos hcond]

/-- Concrete check of `c1_delete_spec`: deleting index 1 of a three-element
ledger succeeds, shrinks it to two elements, shifts index 2 into index 1, and
deleting index 5 fails with `NotFound` leaving the ledger unchanged. -/
theorem c1_delete_spec_witness :
    ((NewDatabase "L").Store ⟨"a", 1, Withdraw, 0⟩ |>.Store ⟨"b", 2, Deposit, 0⟩
      |>.Store ⟨"c", 3, Deposit, 0⟩ |>.Delete 1).2 = none ∧
    ((NewDatabase "L").Store ⟨"a", 1, Withdraw, 0⟩ |>.Store ⟨"b", 2, Deposit, 0⟩
      |>.Store ⟨"c", 3, Deposit, 0⟩ |>.Delete 1).1.transactions[1]? =
      ((NewDatabase "L").Store ⟨"a", 1, Withdraw, 0⟩ |>.Store ⟨"b", 2, Deposit, 0⟩
        |>.Store ⟨"c", 3, Deposit, 0⟩).transactions[2]? ∧
    ((NewDatabase "L").Store ⟨"a", 1, Withdraw, 0⟩ |>.Store ⟨"b", 2, Deposit, 0⟩
      |>.Store ⟨"c", 3, Deposit, 0⟩ |>.Delete 5) =
      ((NewDatabase "L").Store ⟨"a", 1, Withdraw, 0⟩ |>.Store ⟨"b", 2, Deposit, 0⟩
        |>.Store ⟨"c", 3, Deposit, 0⟩, some DbError.transactionNotFound) :=
  ⟨((c1_delete_spec _ 1).1 (by decide) (by decide)).1,
   ((c1_delete_spec _ 1).1 (by decide) (by decide)).2.2.2 1 (by decide),
   (c1_delete_spec _ 5).2 (by decide)⟩

/-- C2: on every ledger, `Read(id)` returns the transaction stored at index `id`
with no error exactly when `0 <= id < Size()`; otherwise it returns the zero
transaction and fails with `NotFound`, and no error kind other than `NotFound`
is ever produced. -/
theorem c2_read_spec (db : Database) (id : Int) :
    ((db.Read id).2 = none ↔ 0 ≤ id ∧ id < db.Size) ∧
    (0 ≤ id → id < db.Size →
      db.Read id = (db.transactions.getD id.toNat emptyTransaction, none) ∧
      db.transactions[id.toNat]? = some (db.Read id).1) ∧
    (¬(0 ≤ id ∧ id < db.Size) →
      db.Read id = (emptyTransaction, some DbError.transactionNotFound)) ∧
    (∀ e : DbError, (db.Read id).2 = some e → e = DbError.transactionNotFound) := by
  have hsize : db.Size = (db.transactions.length : Int) := rfl
  refine ⟨?_, ?_, ?_, fun e _ => by cases e; rfl⟩
  · constructor
    · intro h
      by_contra hc
      have hcond : id < 0 ∨ db.Size ≤ id := by omega
      simp [Database.Read, if_pos hcond] at h
    · intro h
      have hcond : ¬(id < 0 ∨ db.Size ≤ id) := by omega
      simp [Database.Read, if_neg hcond]
  · intro h0 hlt
    have hcond : ¬(id < 0 ∨ db.Size ≤ id) := by omega
    have hk : id.toNat < db.transactions.length := by omega
    simp only [Database.Read, if_neg hcond]
    exact ⟨trivial, by rw [List.getD_eq_getElem?_getD, List.getElem?_eq_getElem hk]; rfl⟩
  · intro h
    have hcond : id < 0 ∨ db.Size ≤ id := by omega
    simp only [Database.Read, if_pos hcond]

/-- Concrete check of `c2_read_spec`: on a one-element ledger, `Read 0`
succeeds with the stored transaction and `Read 1` fails with `NotFound`. -/
theorem c2_read_spec_witness :
    ((NewDatabase "L").Store ⟨"a", 7, Deposit, 0⟩).Read 0 =
      (((NewDatabase "L").Store ⟨"a", 7, Deposit, 0⟩).transactions.getD
        (0 : Int).toNat emptyTransaction, none) ∧
    ((NewDatabase "L").Store ⟨"a", 7, Deposit, 0⟩).Read 1 =
      (emptyTransaction, some DbError.transactionNotFound) :=
  ⟨((c2_read_spec _ 0).2.1 (by decide) (by decide)).1,
   (c2_read_spec _ 1).2.2.1 (by decide)⟩

/-- C8: `Store(t)` always succeeds: it appends `t` at the end, so the new
transaction's positional ID is the prior `Size()` (reading that ID returns
`t`), and `Size()` grows by exactly one; on an empty ledger, `Store(t)`
followed by `Read(0)` returns `t` and `Size()` equals 1. -/
theorem c8_store_spec (db : Database) (t : Transaction) (nm : String) :
    (db.Store t).transactions = db.transactions ++ [t] ∧
    (db.Store t).Size = db.Size + 1 ∧
    (db.Store t).Read db.Size = (t, none) ∧
    ((NewDatabase nm).Store t).Read 0 = (t, none) ∧
    ((NewDatabase nm).Store t).Size = 1 := by
  have hsize : db.Size = (db.transactions.length : Int) := rfl
  have hstore : (db.Store t).Size = db.Size + 1 := by
    simp only [Database.Store, Database.Size, List.length_append, List.length_singleton]
    omega
  refine ⟨rfl, hstore, ?_, ?_, ?_⟩
  · have hcond : ¬(db.Size < 0 ∨ (db.Store t).Size ≤ db.Size) := by omega
    simp only [Database.Read, if_neg hcond]
    have htn : (db.Size).toNat = db.transactions.length := by omega
    rw [Database.Store, htn, List.getD_eq_getElem?_getD, List.getElem?_concat_length]
    rfl
  · have hcond : ¬((0 : Int) < 0 ∨ ((NewDatabase nm).Store t).Size ≤ 0) := by
      simp [NewDatabase, Database.Store, Database.Size]
    simp only [Database.Read, if_neg hcond]
    rfl
  · simp [NewDatabase, Database.Store, Database.Size]

theorem natDecimalAux_congr :
    ∀ f₁ f₂ n : Nat, n < f₁ → n < f₂ → natDecimalAux f₁ n = natDecimalAux f₂ n := by
  intro f₁
  induction f₁ with
  | zero => intro f₂ n h _; omega
  | succ f ih =>
    intro f₂ n h1 h2
    cases f₂ with
    | zero => omega
    | succ g =>
      simp only [natDecimalAux]
      by_cases h10 : n < 10
      · simp [h10]
      · simp only [if_neg h10]
        rw [ih g (n / 10) (by omega) (by omega)]

theorem natDecimal_eq (n : Nat) :
    natDecimal n =
      if n < 10 then [digitChar n] else natDecimal (n / 10) ++ [digitChar (n % 10)] := by
  show natDecimalAux (n + 1) n = _
  rw [show natDecimalAux (n + 1) n =
      (if n < 10 then [digitChar n] else natDecimalAux n (n / 10) ++ [digitChar (n % 10)])
    from rfl]
  by_cases h10 : n < 10
  · rw [if_pos h10, if_pos h10]
  · rw [if_neg h10, if_neg h10,
      natDecimalAux_congr n (n / 10 + 1) (n / 10) (by omega) (by omega)]
    rfl

theorem digitChar_isDigit : ∀ d : Nat, d < 10 → (digitChar d).isDigit = true := by decide

theorem digitChar_toNat : ∀ d : Nat, d < 10 → (digitChar d).toNat - 48 = d := by decide

theorem natDecimal_digits (n : Nat) : ∀ c ∈ natDecimal n, c.isDigit = true := by
  induction n using Nat.strong_induction_on with
  | _ n ih =>
    rw [natDecimal_eq]
    by_cases h10 : n < 10
    · simp only [if_pos h10, List.mem_singleton]
      rintro c rfl
      exact digitChar_isDigit n h10
    · simp only [if_neg h10, List.mem_append, List.mem_singleton]
      rintro c (hc | rfl)
      · exact ih (n / 10) (by omega) c hc
      · exact digitChar_isDigit _ (by omega)

theorem natDecimal_head (n : Nat) : ∃ c cs, natDecimal n = c :: cs ∧ c.isDigit = true := by
  induction n using Nat.strong_induction_on with
  | _ n ih =>
    rw [natDecimal_eq]
    by_cases h10 : n < 10
    · exact ⟨digitChar n, [], by simp [h10], digitChar_isDigit n h10⟩
    · obtain ⟨c, cs, hcons, hdig⟩ := ih (n / 10) (by omega)
      exact ⟨c, cs ++ [digitChar (n % 10)], by simp [h10, hcons], hdig⟩

theorem pad2_digits (n : Nat) : ∀ c ∈ pad2 n, c.isDigit = true := by
  intro c hc
  unfold pad2 at hc
  by_cases h10 : n < 10
  · rw [if_pos h10] at hc
    rcases List.mem_cons.1 hc with rfl | hc
    · decide
    · exact natDecimal_digits n c hc
  · rw [if_neg h10] at hc
    exact natDecimal_digits n c hc

theorem scanDigitsAux_stop (l : List Char) (acc : Nat) (h : headNotDigit l) :
    scanDigitsAux l acc = (acc, l) := by
  cases l with
  | nil => rfl
  | cons c cs =>
    have h' : c.isDigit = false := h
    simp [scanDigitsAux, h']

theorem scanDigitsAux_natDecimal (n : Nat) :
    ∀ (rest : List Char) (acc : Nat),
      scanDigitsAux (natDecimal n ++ rest) acc =
        scanDigitsAux rest (acc * 10 ^ (natDecimal n).length + n) := by
  induction n using Nat.strong_induction_on with
  | _ n ih =>
    intro rest acc
    rw [natDecimal_eq]
    by_cases h10 : n < 10
    · simp [h10, scanDigitsAux, digitChar_isDigit n h10, digitChar_toNat n h10]
    · have hms : n % 10 < 10 := by omega
      rw [if_neg h10, List.append_assoc, List.singleton_append]
      rw [ih (n / 10) (by omega)]
      simp only [scanDigitsAux, digitChar_isDigit _ hms, digitChar_toNat _ hms,
        List.length_append, List.length_singleton, if_true]
      rw [pow_succ, ← Nat.mul_assoc]
      congr 1
      generalize acc * 10 ^ (natDecimal (n / 10)).length = b
      omega

theorem scanNat_natDecimal (n : Nat) (rest : List Char) (h : headNotDigit rest) :
    scanNat (natDecimal n ++ rest) = some (n, rest) := by
  obtain ⟨c, cs, hcons, hdig⟩ := natDecimal_head n
  rw [hcons, List.cons_append]
  simp only [scanNat, hdig, if_true]
  rw [← List.cons_append, ← hcons, scanDigitsAux_natDecimal n rest 0,
    scanDigitsAux_stop rest _ h]
  simp

theorem scanInt_intDecimal (q : Int) (rest : List Char) (h : headNotDigit rest) :
    scanInt (intDecimal q ++ rest) = some (q, rest) := by
  by_cases hneg : q < 0
  · simp only [intDecimal, if_pos hneg, List.cons_append, scanInt, if_pos rfl]
    rw [scanNat_natDecimal _ rest h]
    have hq : (((-q).toNat : Int)) = -q := Int.toNat_of_nonneg (by omega)
    simp [hq]
  · obtain ⟨c, cs, hcons, hdig⟩ := natDecimal_head q.toNat
    have hcdash : ¬(c = '-') := by
      intro hcd
      rw [hcd] at hdig
      exact absurd hdig (by decide)
    simp only [intDecimal, if_neg hneg]
    rw [hcons, List.cons_append]
    simp only [scanInt, if_neg hcdash]
    rw [← List.cons_append, ← hcons, scanNat_natDecimal _ rest h]
    have hq : ((q.toNat : Int)) = q := Int.toNat_of_nonneg (by omega)
    simp [hq]

theorem scanNat2_pad2 (r : Nat) (h : r < 100) (rest : List Char) :
    scanNat2 (pad2 r ++ rest) = some (r, rest) := by
  have h0dig : ('0').isDigit = true := by decide
  have h0val : ('0').toNat - 48 = 0 := by decide
  by_cases h10 : r < 10
  · have hone : natDecimal r = [digitChar r] := by rw [natDecimal_eq, if_pos h10]
    simp only [pad2, if_pos h10, hone, List.cons_append, List.singleton_append]
    simp [scanNat2, h0dig, h0val, digitChar_isDigit r h10, digitChar_toNat r h10]
  · have hdiv : r / 10 < 10 := by omega
    have htwo : natDecimal r = [digitChar (r / 10), digitChar (r % 10)] := by
      rw [natDecimal_eq, if_neg h10, natDecimal_eq, if_pos hdiv]
      rfl
    simp only [pad2, if_neg h10, htwo, List.cons_append, List.nil_append]
    simp [scanNat2, digitChar_isDigit _ hdiv, digitChar_isDigit (r % 10) (by omega),
      digitChar_toNat _ hdiv, digitChar_toNat (r % 10) (by omega)]
    omega

theorem natAbs_tmod_ratio_lt (v : Int) : (Int.tmod v ratio).natAbs < 100 := by
  cases v with
  | ofNat m =>
    show (Int.ofNat (m % 100)).natAbs < 100
    simpa using Nat.mod_lt m (by omega)
  | negSucc m =>
    show (-(Int.ofNat ((m + 1) % 100))).natAbs < 100
    simpa using Nat.mod_lt (m + 1) (by omega)

theorem tmod_ofNat_ratio (mn : Nat) (h : mn < 100) : Int.tmod (mn : Int) ratio = mn := by
  show Int.ofNat (mn % 100) = (mn : Int)
  rw [Nat.mod_eq_of_lt h]
  rfl

theorem abs_toNat (x : Int) : (abs x).toNat = x.natAbs := by
  cases x with
  | ofNat m =>
    have h : ¬((m : Int) < ZeroValue) := by
      show ¬((m : Int) < 0)
      omega
    simp [abs, h]
  | negSucc m =>
    have h : Int.negSucc m < ZeroValue := Int.negSucc_lt_zero m
    simp [abs, h, Int.neg_negSucc]

theorem Parse_ValueString (v : Value) :
    Parse (ValueString v) = Int.tdiv v ratio * ratio + ((Int.tmod v ratio).natAbs : Int) := by
  have hR : (abs (Int.tmod v ratio)).toNat = (Int.tmod v ratio).natAbs := abs_toNat _
  have hRlt : (Int.tmod v ratio).natAbs < 100 := natAbs_tmod_ratio_lt v
  have hdata : (ValueString v).data =
      intDecimal (Int.tdiv v ratio) ++ '.' :: (pad2 ((Int.tmod v ratio).natAbs) ++ ['€']) := by
    show intDecimal (Int.tdiv v ratio) ++ '.' :: (pad2 (abs (Int.tmod v ratio)).toNat ++ ['€']) = _
    rw [hR]
  have hscan : scanInt (ValueString v).data =
      some (Int.tdiv v ratio, '.' :: (pad2 ((Int.tmod v ratio).natAbs) ++ ['€'])) := by
    rw [hdata]
    exact scanInt_intDecimal _ _ (show ('.').isDigit = false by decide)
  unfold Parse
  rw [hscan]
  simp only []
  rw [scanNat2_pad2 _ hRlt]
  simp only []
  rw [tmod_ofNat_ratio _ hRlt]

/-- C3 (amended): for every value, parsing the rendered string yields the
truncated major part times the ratio plus the unsigned minor magnitude,
`Parse(Render(v)) = tdiv(v, ratio) * ratio + |v tmod ratio|`; consequently the
round trip `Parse(Render(v)) = v` holds for every nonnegative `v` (and for
negative whole-major values, whose remainder is zero), but fails for negative
values with a nonzero minor part. -/
theorem c3_parse_render (v : Value) :
    Parse (ValueString v) = Int.tdiv v ratio * ratio + ((Int.tmod v ratio).natAbs : Int) ∧
    (0 ≤ v → Parse (ValueString v) = v) := by
  refine ⟨Parse_ValueString v, fun hv => ?_⟩
  rw [Parse_ValueString v]
  have h1 : 0 ≤ Int.tmod v ratio := Int.tmod_nonneg ratio hv
  rw [Int.natAbs_of_nonneg h1]
  exact Int.tdiv_add_tmod' v ratio

/-- Concrete check of `c3_parse_render`: the round trip holds at 1234 minor
units ("12.34€"). -/
theorem c3_parse_render_witness : (0 : Int) ≤ 1234 ∧ Parse (ValueString 1234) = 1234 :=
  ⟨by decide, (c3_parse_render 1234).2 (by decide)⟩

/-- C3 counterexample: the value -50 renders as "0.50€" (truncated division
gives major part 0, and the minor part is rendered unsigned), which parses
back to 50, not -50.  The claimed round trip fails for negative values. -/
theorem c3_parse_render_counterexample :
    ValueString (-50) = "0.50€" ∧ Parse (ValueString (-50)) = 50 ∧
      Parse (ValueString (-50)) ≠ -50 := by
  refine ⟨?_, ?_, ?_⟩ <;> decide

/-- C4: rendering a value places the absolute value of `v tmod ratio` (the
unsigned minor magnitude) in the minor slot of the `"%d.%02d€"` pattern, and
that slot consists of decimal digits only — never a minus sign — for every
value, negative ones included. -/
theorem c4_render_minor_abs (v : Value) :
    (ValueString v).data =
      intDecimal (Int.tdiv v ratio) ++ '.' :: (pad2 ((Int.tmod v ratio).natAbs) ++ ['€']) ∧
    ∀ c ∈ pad2 ((Int.tmod v ratio).natAbs), c ≠ '-' := by
  constructor
  · show intDecimal (Int.tdiv v ratio) ++ '.' :: (pad2 (abs (Int.tmod v ratio)).toNat ++ ['€']) = _
    rw [abs_toNat]
  · intro c hc
    have hdig : c.isDigit = true := pad2_digits _ c hc
    intro hdash
    rw [hdash] at hdig
    exact absurd hdig (by decide)

/-- Concrete check of `c4_render_minor_abs`: for -150 ("-1.50€") the minor slot
contains the digit 5 and no minus sign. -/
theorem c4_render_minor_abs_witness :
    '5' ∈ pad2 ((Int.tmod (-150) ratio).natAbs) ∧ '5' ≠ '-' :=
  ⟨by decide, (c4_render_minor_abs (-150)).2 '5' (by decide)⟩

/-- C5: whenever the file's bytes are readable but do not deserialize into a
valid ledger (the unmarshaller errors on them), `Open` returns the empty
ledger — empty name, no transactions — together with no error. -/
theorem c5_open_corrupt (bytes : String) (unmarshal : String → Option Database)
    (h : unmarshal bytes = none) :
    Open (Except.ok bytes) unmarshal = Except.ok { name := "", transactions := [] } := by
  simp [Open, h]

/-- Concrete check of `c5_open_corrupt` on non-ledger bytes with an
always-failing unmarshaller. -/
theorem c5_open_corrupt_witness :
    (fun _ : String => (none : Option Database)) "no valid ledger" = none ∧
    Open (Except.ok "no valid ledger") (fun _ : String => (none : Option Database)) =
      Except.ok { name := "", transactions := [] } :=
  ⟨rfl, c5_open_corrupt "no valid ledger" (fun _ => none) rfl⟩

/-- C6 (the code evaluated at the failing input): when marshalling succeeds but
the underlying `ioutil.WriteFile` call fails, `Write` still returns no error —
the write error is discarded by the source — contradicting the claimed
`IOError` result for unwritable paths. -/
theorem c6_write_swallows_error (bytes : String) (e : FsError) :
    Write (Except.ok bytes) (some e) = none := rfl

/-- C7 (amended): `Filter` applies its predicates conjunctively, each only when
not set to its sentinel absent value: exact name equality when the name
predicate is non-empty, amount at least the minimum and at most the maximum
(inclusive) when those are non-zero, and — for a non-empty kind predicate —
kind `deposit` is required if the predicate is a deposit synonym and kind
`withdraw` if it is a withdraw synonym, while a non-empty predicate that is no
recognized synonym excludes nothing.  The claim's concrete instance holds:
kind "wd" with minimum 100 over [Withdraw 50, Withdraw 150, Deposit 200]
selects exactly the withdrawal of 150, keyed by ID 1. -/
theorem c7_filter_conjunctive (database : Database) (nameP : String)
    (maxP minP : Value) (typeP : String) (id : Nat) (t : Transaction) :
    ((id, t) ∈ filterTransactions database nameP maxP minP typeP ↔
      database.transactions[id]? = some t ∧
      (nameP = "" ∨ t.name = nameP) ∧
      (maxP = ZeroValue ∨ t.amount ≤ maxP) ∧
      (minP = ZeroValue ∨ minP ≤ t.amount) ∧
      (typeP = "" ∨
        ((isTypeDeposit typeP → t.type = Deposit) ∧
         (isTypeWithdraw typeP → t.type = Withdraw)))) ∧
    filterTransactions { name := "L", transactions := [exW50, exW150, exD200] }
      "" ZeroValue 100 "wd" = [(1, exW150)] := by
  constructor
  · constructor
    · intro hmem
      simp only [filterTransactions, List.mem_filterMap, List.mem_range] at hmem
      obtain ⟨a, ha, hf⟩ := hmem
      split_ifs at hf with h1 h2 h3 h4
      rw [Option.some.injEq, Prod.mk.injEq] at hf
      obtain ⟨rfl, rfl⟩ := hf
      push_neg at h1
      simp only [Value.Smaller, decide_eq_true_eq] at h2
      push_neg at h2
      simp only [Value.Larger, decide_eq_true_eq] at h3
      push_neg at h3
      push_neg at h4
      refine ⟨?_, ?_, ?_, ?_, ?_⟩
      · simp [List.getElem?_eq_getElem ha, List.getD_eq_getElem?_getD]
      · rcases eq_or_ne nameP "" with hn | hn
        · exact Or.inl hn
        · exact Or.inr (h1 hn)
      · rcases eq_or_ne maxP ZeroValue with hm | hm
        · exact Or.inl hm
        · exact Or.inr (h2 hm)
      · rcases eq_or_ne minP ZeroValue with hm | hm
        · exact Or.inl hm
        · exact Or.inr (h3 hm)
      · rcases eq_or_ne typeP "" with ht | ht
        · exact Or.inl ht
        · exact Or.inr (h4 ht)
    · rintro ⟨hget, hname, hmax, hmin, htype⟩
      obtain ⟨ha, hval⟩ := List.getElem?_eq_some.1 hget
      have ht : database.transactions.getD id emptyTransaction = t := by
        rw [List.getD_eq_getElem?_getD, hget]
        rfl
      simp only [filterTransactions, List.mem_filterMap, List.mem_range]
      refine ⟨id, ha, ?_⟩
      have hc1 : ¬(nameP ≠ "" ∧
          (database.transactions.getD id emptyTransaction).name ≠ nameP) := by
        rw [ht]
        rcases hname with hn | hn
        · intro hcc; exact hcc.1 hn
        · intro hcc; exact hcc.2 hn
      have hc2 : ¬(maxP ≠ ZeroValue ∧
          Value.Smaller maxP (database.transactions.getD id emptyTransaction).amount) := by
        rw [ht]
        simp only [Value.Smaller, decide_eq_true_eq]
        rcases hmax with hm | hm
        · intro hcc; exact hcc.1 hm
        · intro hcc; exact absurd hcc.2 (not_lt_of_le hm)
      have hc3 : ¬(minP ≠ ZeroValue ∧
          Value.Larger minP (database.transactions.getD id emptyTransaction).amount) := by
        rw [ht]
        simp only [Value.Larger, decide_eq_true_eq]
        rcases hmin with hm | hm
        · intro hcc; exact hcc.1 hm
        · intro hcc; exact absurd hcc.2 (not_lt_of_le hm)
      have hc4 : ¬(typeP ≠ "" ∧
          ((isTypeDeposit typeP ∧
              (database.transactions.getD id emptyTransaction).type ≠ Deposit) ∨
           (isTypeWithdraw typeP ∧
              (database.transactions.getD id emptyTransaction).type ≠ Withdraw))) := by
        rw [ht]
        rcases htype with hty | hty
        · intro hcc; exact hcc.1 hty
        · rintro ⟨-, hbad | hbad⟩
          · exact hbad.2 (hty.1 hbad.1)
          · exact hbad.2 (hty.2 hbad.1)
      rw [if_neg hc1, if_neg hc2, if_neg hc3, if_neg hc4, ht]
  · decide

/-- Concrete check of `c7_filter_conjunctive`: the selected entry of the
claim's instance satisfies the membership characterization. -/
theorem c7_filter_conjunctive_witness :
    (1, exW150) ∈ filterTransactions
      { name := "L", transactions := [exW50, exW150, exD200] } "" ZeroValue 100 "wd" :=
  (c7_filter_conjunctive { name := "L", transactions := [exW50, exW150, exD200] }
    "" ZeroValue 100 "wd" 1 exW150).1.mpr (by decide)

/-- C7 counterexample to the claim as stated: with the non-empty kind predicate
"xyz" — which is neither a deposit nor a withdraw synonym — a withdrawal is
kept by `Filter` although its kind does not match the predicate, so the claimed
"in the result iff the kind matches the non-empty kind predicate" fails. -/
theorem c7_filter_counterexample :
    filterTransactions { name := "L", transactions := [exW50] } "" ZeroValue ZeroValue "xyz" =
      [(0, exW50)] ∧
    ¬(("xyz" : String) = "" ∨
      (isTypeDeposit "xyz" ∧ exW50.type = Deposit) ∨
      (isTypeWithdraw "xyz" ∧ exW50.type = Withdraw)) := by
  constructor
  · decide
  · decide

/-- C9: for every initial file content and every pair of in-memory mutations
run as composite mutators (each an `Open` → mutate → `Write` unit, such as the
db package's `Store` and `Delete`), some interleaving of the two invocations'
events — each invocation still reading before it writes, both invocations
completing — leaves the file holding exactly the later writer's mutation of
the initial content: the earlier invocation's mutation is silently discarded
(lost update). -/
theorem c9_lost_update (f0 la lb : Database) (mutA mutB : Database → Database) :
    ∃ sched : List RaceEvent,
      [RaceEvent.readA, RaceEvent.writeA].Sublist sched ∧
      [RaceEvent.readB, RaceEvent.writeB].Sublist sched ∧
      sched.Perm [RaceEvent.readA, RaceEvent.writeA, RaceEvent.readB, RaceEvent.writeB] ∧
      (runRace mutA mutB ⟨f0, la, lb⟩ sched).file = mutB f0 :=
  ⟨[RaceEvent.readA, RaceEvent.readB, RaceEvent.writeA, RaceEvent.writeB],
    by decide, by decide, by decide, rfl⟩

theorem foldl_balanceStep_filter (transactions : List Transaction) :
    ∀ b : Value,
      transactions.foldl balanceStep b =
        (transactions.filter fun t => t.type == Withdraw || t.type == Deposit).foldl
          balanceStep b := by
  induction transactions with
  | nil => intro b; rfl
  | cons t ts ih =>
    intro b
    by_cases hw : t.type = Withdraw
    · have hp : (t.type == Withdraw || t.type == Deposit) = true := by simp [hw]
      rw [List.foldl_cons, List.filter_cons, if_pos hp, List.foldl_cons]
      exact ih _
    · by_cases hd : t.type = Deposit
      · have hp : (t.type == Withdraw || t.type == Deposit) = true := by simp [hd]
        rw [List.foldl_cons, List.filter_cons, if_pos hp, List.foldl_cons]
        exact ih _
      · have hp : ¬((t.type == Withdraw || t.type == Deposit) = true) := by simp [hw, hd]
        have hstep : balanceStep b t = b := by simp [balanceStep, hw, hd]
        rw [List.foldl_cons, List.filter_cons, if_neg hp, hstep]
        exact ih _

/-- C10: in the running balance over an ordered transaction sequence, every
transaction whose kind string is neither "withdraw" nor "deposit" (the kind is
free text coming from the file) contributes exactly zero: the balance equals
the balance of the sequence with all such transactions removed. -/
theorem c10_balance_unknown_kind (transactions : List Transaction) :
    tableBalance transactions =
      tableBalance (transactions.filter fun t => t.type == Withdraw || t.type == Deposit) :=
  foldl_balanceStep_filter transactions 0

end TrDb
